import Mathlib

/-!
# Verification of the wa-bridge message-delivery pipeline

Shallow embedding, in Lean 4, of the core components of the `wa-bridge`
WhatsApp↔CRM bridge service:

* `MessageQueue` (`src/whatsapp/queue.ts`): a sequential, single-worker,
  retrying send queue;
* `DedupeCache` (`src/whatsapp/dedupe.ts`): a bounded TTL deduplication cache;
* the webhook-address resolvers and forwarding handlers
  (`InboundHandler` / `OutboundHandler`, in `src/whatsapp/outbound.ts` and the
  env-aware handler variants).

JavaScript specifics that matter for the embedding:

* `x || y` on strings treats the empty string as falsy (`jsOr`);
* `String.prototype.includes` (`jsIncludes`);
* `Map` iteration is in insertion order; `Map.set` on an existing key updates
  the value in place keeping the original position (`mapSet`);
* `Array.prototype.sort` is stable, so `sort(byTimestamp)[0]` is the
  first-inserted entry among those with minimal timestamp (`sortByTs` below
  is a stable sort with the same tie behaviour);
* `new Date(ms).toISOString()` throws a `RangeError` when `|ms|` exceeds
  8 640 000 000 000 000 (the ECMAScript time-value range); we model the ISO
  string abstractly by its millisecond value (`dateToISOStringMs`).

Asynchrony is modelled by a labelled small-step relation whose atomic steps
are the synchronous segments between `await` points of the single-threaded
event loop; network calls and timers are oracles passed in as parameters.
-/

namespace WaBridge

/-- JS strings are modelled as their character lists (`String.toList`), which
compute inside the kernel. -/
abbrev JStr := List Char

/-- JavaScript `a || b` on optional strings: `undefined` and `""` are falsy. -/
def jsOr (a b : Option JStr) : Option JStr :=
  match a with
  | some s => if s = [] then b else some s
  | none => b

/-- JavaScript truthiness of a `string | null` value. -/
def jsTruthy : Option JStr → Bool
  | some s => s ≠ []
  | none => false

/-- JavaScript `s.startsWith(pre)`. -/
def listStartsWith (s pre : JStr) : Bool :=
  s.take pre.length = pre

/-- JavaScript `s.includes(pat)`: `pat` occurs at some suffix position. -/
def jsIncludes : JStr → JStr → Bool
  | [], pat => listStartsWith [] pat
  | c :: rest, pat => listStartsWith (c :: rest) pat || jsIncludes rest pat

/-- `s.split(sep)[0]` for a single-character separator: the prefix of `s`
before the first occurrence of `sep` (all of `s` when `sep` is absent). -/
def takeUntil (c : Char) : JStr → JStr
  | [] => []
  | x :: xs => if x = c then [] else x :: takeUntil c xs

/-- ECMAScript maximal time value in milliseconds: `8.64e15`. -/
def maxDateMs : Nat := 8640000000000000

/-- `new Date(ms).toISOString()`: we keep the millisecond value as the
abstract content of the ISO string; out-of-range values give the
`RangeError: Invalid time value` that `toISOString` throws on an
invalid `Date`. -/
def dateToISOStringMs (ms : Nat) : Except Unit Nat :=
  if ms ≤ maxDateMs then .ok ms else .error ()

/-! ## `MessageQueue.executeWithRetry` (`src/whatsapp/queue.ts`, lines 64–90)

The executor is abstracted by an oracle `fails : Nat → Bool` telling whether
the attempt with 0-based index `i` (the attempt made while `item.retries = i`)
throws.  The trace records how many times the executor was invoked and the
sequence of backoff delays slept, in order. -/

/-- Error outcome of `executeWithRetry`: `execError i` is the executor's error
from the attempt with 0-based index `i` (re-thrown at line 75 of `queue.ts`);
`maxRetriesExceeded` is the `throw new Error('Max retries exceeded')` after
the loop (line 89, reachable only when the loop guard fails immediately). -/
inductive RetryErr where
  | execError (attempt : Nat)
  | maxRetriesExceeded
  deriving DecidableEq, Repr

/-- Observable trace of one `executeWithRetry` call: number of executor
invocations, backoff delays slept (in order), and the result (`ok i` =
the attempt with index `i` returned normally). -/
structure RetryTrace where
  attempts : Nat
  delays : List Nat
  result : Except RetryErr Nat
  deriving Repr

/-- The `while (item.retries <= this.maxRetries)` loop of
`executeWithRetry`, entered with `item.retries = retries`:
try the executor; on failure increment `retries`, re-throw if the budget is
exhausted, otherwise sleep `retryDelayMs * 2 ^ (retries - 1)` and loop. -/
def executeWithRetryGo (maxRetries retryDelayMs : Nat) (fails : Nat → Bool)
    (retries : Nat) : RetryTrace :=
  if _h : retries ≤ maxRetries then
    if fails retries then
      if maxRetries < retries + 1 then
        { attempts := 1, delays := [], result := .error (.execError retries) }
      else
        let delay := retryDelayMs * 2 ^ (retries + 1 - 1)
        let t := executeWithRetryGo maxRetries retryDelayMs fails (retries + 1)
        { attempts := t.attempts + 1, delays := delay :: t.delays,
          result := t.result }
    else
      { attempts := 1, delays := [], result := .ok retries }
  else
    { attempts := 0, delays := [], result := .error .maxRetriesExceeded }
termination_by maxRetries + 1 - retries
decreasing_by omega

/-- `executeWithRetry(item)` with a fresh item (`retries = 0`). -/
def executeWithRetry (maxRetries retryDelayMs : Nat) (fails : Nat → Bool) :
    RetryTrace :=
  executeWithRetryGo maxRetries retryDelayMs fails 0

/-! ## `MessageQueue` interleaving model (`src/whatsapp/queue.ts`, lines 23–62)

The event loop is single-threaded: a synchronous segment between two `await`
points runs atomically.  The atomic segments of `MessageQueue` are:

* all of `add` together with the prefix of `process()` it invokes
  synchronously (the `processing` check, and — when the flag was unset —
  setting it, shifting the first item and calling its executor up to the
  executor's first internal `await`);
* the resumption of the worker when `await this.executeWithRetry(item)`
  settles: resolve/reject the item's promise, then either shift the next
  item and call its executor (up to its first `await`), or clear the
  `processing` flag and return.

`workers` holds one entry per `process()` activation currently inside the
`while` loop (the entry is the id of the item whose executor it is awaiting);
it is a list so that "at most one executor runs at any instant" is a theorem
about the reachable states, not a typing artifact.  `settled` records, in
settlement order, each item's id and whether its promise was resolved
(`true`) or rejected (`false`); the per-item outcome oracle `oc` abstracts
`executeWithRetry` (detailed separately above).  `enqueued` is the ghost
submission-order trace. -/

/-- State of the `MessageQueue` interleaving model. -/
structure QState where
  pending : List Nat
  processing : Bool
  workers : List Nat
  settled : List (Nat × Bool)
  enqueued : List Nat
  nextId : Nat
  deriving Repr

/-- Initial state: fresh `MessageQueue` (empty queue, flag unset). -/
def QState.init : QState :=
  { pending := [], processing := false, workers := [], settled := [],
    enqueued := [], nextId := 0 }

/-- One atomic step of the queue under outcome oracle `oc`
(`oc i = true` ⇔ item `i`'s `executeWithRetry` returns normally). -/
inductive QStep (oc : Nat → Bool) : QState → QState → Prop where
  /-- `add` while the flag is set: push; the nested `process()` call returns
  at its first guard (line 42). -/
  | add_busy (s : QState) (h : s.processing = true) :
      QStep oc s { s with pending := s.pending ++ [s.nextId],
                          enqueued := s.enqueued ++ [s.nextId],
                          nextId := s.nextId + 1 }
  /-- `add` while the flag is unset: push; `process()` sets the flag, enters
  the loop, shifts the front item and invokes its executor, suspending at the
  executor's first `await`. -/
  | add_idle (s : QState) (h : s.processing = false) :
      QStep oc s { s with pending := (s.pending ++ [s.nextId]).tail,
                          processing := true,
                          workers := s.workers ++ [(s.pending ++ [s.nextId]).headI],
                          enqueued := s.enqueued ++ [s.nextId],
                          nextId := s.nextId + 1 }
  /-- the awaited `executeWithRetry(w)` settles and the queue is non-empty:
  resolve/reject `w`, loop, shift the next item and invoke its executor. -/
  | complete_continue (s : QState) (w : Nat) (h : w ∈ s.workers)
      (hp : s.pending ≠ []) :
      QStep oc s { s with pending := s.pending.tail,
                          workers := s.workers.erase w ++ [s.pending.headI],
                          settled := s.settled ++ [(w, oc w)] }
  /-- the awaited `executeWithRetry(w)` settles and the queue is empty:
  resolve/reject `w`, exit the loop, clear the flag, return. -/
  | complete_exit (s : QState) (w : Nat) (h : w ∈ s.workers)
      (hp : s.pending = []) :
      QStep oc s { s with workers := s.workers.erase w,
                          processing := false,
                          settled := s.settled ++ [(w, oc w)] }

/-- Reachability from the fresh queue. -/
inductive QReach (oc : Nat → Bool) : QState → Prop where
  | init : QReach oc QState.init
  | step {s s' : QState} : QReach oc s → QStep oc s s' → QReach oc s'

/-- The inductive invariant of the queue: the `processing` flag counts the
active workers exactly, the worker only goes idle with an empty queue, and
the submission trace is the settlement trace, then the in-flight item, then
the pending queue, in order. -/
def QInv (s : QState) : Prop :=
  s.workers.length = (if s.processing then 1 else 0) ∧
  (s.processing = false → s.pending = []) ∧
  s.enqueued = s.settled.map Prod.fst ++ s.workers ++ s.pending

/-! ## `DedupeCache` (`src/whatsapp/dedupe.ts`)

`this.cache : Map<string, CacheEntry>` is modelled as an association list in
insertion order with unique keys; the stored `CacheEntry` is reduced to its
`timestamp` (its `messageId` field duplicates the key).  `Date.now()` is the
explicit parameter `now`. -/

/-- `Map.get`. -/
def mapGet (l : List (JStr × Nat)) (k : JStr) : Option Nat :=
  (l.find? (fun e => e.1 = k)).map (fun e => e.2)

/-- `Map.delete`. -/
def mapDelete (l : List (JStr × Nat)) (k : JStr) : List (JStr × Nat) :=
  l.filter (fun e => e.1 ≠ k)

/-- `Map.set`: update in place (keeping insertion position) when the key is
present, append otherwise. -/
def mapSet (l : List (JStr × Nat)) (k : JStr) (v : Nat) : List (JStr × Nat) :=
  if (l.find? (fun e => e.1 = k)).isSome then
    l.map (fun e => if e.1 = k then (k, v) else e)
  else
    l ++ [(k, v)]

/-- The `DedupeCache` state (`maxSize` and `ttlMs` come from the environment;
defaults `1000` and `3600000`). -/
structure DedupeCache where
  cache : List (JStr × Nat)
  maxSize : Nat
  ttlMs : Nat
  deriving DecidableEq, Repr

/-- A freshly constructed cache. -/
def DedupeCache.init (maxSize ttlMs : Nat) : DedupeCache :=
  { cache := [], maxSize := maxSize, ttlMs := ttlMs }

/-- `DedupeCache.has` (lines 25–40): a hit older than `ttlMs` is deleted and
reported absent.  Returns the result together with the possibly mutated
cache. -/
def DedupeCache.hasAt (c : DedupeCache) (messageId : JStr) (now : Nat) :
    Bool × DedupeCache :=
  match mapGet c.cache messageId with
  | none => (false, c)
  | some ts =>
    if now - ts > c.ttlMs then
      (false, { c with cache := mapDelete c.cache messageId })
    else
      (true, c)

/-- Stable insertion into a timestamp-sorted list: the inserted element goes
before the first strictly larger timestamp and before later equal ones,
matching the tie behaviour of the stable JS `Array.prototype.sort`. -/
def insertByTs (e : JStr × Nat) : List (JStr × Nat) → List (JStr × Nat)
  | [] => [e]
  | x :: xs => if e.2 ≤ x.2 then e :: x :: xs else x :: insertByTs e xs

/-- Stable sort by ascending timestamp: the model of
`Array.from(this.cache.entries()).sort((a, b) => a[1].timestamp - b[1].timestamp)`
(JS `sort` is stable, so entries with equal timestamps keep insertion
order). -/
def sortByTs : List (JStr × Nat) → List (JStr × Nat)
  | [] => []
  | x :: xs => insertByTs x (sortByTs xs)

/-- `DedupeCache.add` (lines 42–57): when at capacity, delete the entry at
index 0 of the timestamp-sorted entry array, then `set` the new id with the
current timestamp. -/
def DedupeCache.addAt (c : DedupeCache) (messageId : JStr) (now : Nat) :
    DedupeCache :=
  let cache1 :=
    if c.maxSize ≤ c.cache.length then
      match (sortByTs c.cache).head? with
      | some oldest => mapDelete c.cache oldest.1
      | none => c.cache
    else
      c.cache
  { c with cache := mapSet cache1 messageId now }

/-- A sequence of `add` calls, oldest first. -/
def DedupeCache.addSeq (c : DedupeCache) : List (JStr × Nat) → DedupeCache
  | [] => c
  | (id, t) :: rest => (c.addAt id t).addSeq rest

/-! ## Webhook resolvers and the inbound forwarder

Environment variables are a fixed record; remote calls are oracles.
`Env.inboundOverride` is the truthy value of
`INBOUND_WEBHOOK_URL || N8N_WEBHOOK_INBOUND_URL || CRM_WEBHOOK_URL ||
N8N_WEBHOOK_URL` (JS `||`, so empty strings fall through), or `none`. -/

/-- The webhook-related environment variables read by `InboundHandler`. -/
structure Env where
  inboundWebhookUrl : Option JStr
  n8nWebhookInboundUrl : Option JStr
  crmWebhookUrl : Option JStr
  n8nWebhookUrl : Option JStr
  deriving Repr

/-- `const envWebhookUrl = ... || ... || ... || ...` followed by the
`if (envWebhookUrl)` truthiness test. -/
def Env.inboundOverride (e : Env) : Option JStr :=
  let v := jsOr (jsOr (jsOr e.inboundWebhookUrl e.n8nWebhookInboundUrl)
    e.crmWebhookUrl) e.n8nWebhookUrl
  if jsTruthy v then v else none

/-- Outcome of one `GET /api/settings` call: a response with its `ok` flag
and the webhook field extracted from the JSON body (`none` when missing),
or a thrown error (network failure / timeout / JSON parse error). -/
inductive SettingsFetch where
  | response (ok : Bool) (webhookField : Option JStr)
  | thrown
  deriving DecidableEq, Repr

/-- Outcome of one webhook `POST`: a response with its `ok` flag, or a
thrown error. -/
inductive PostResult where
  | response (ok : Bool)
  | thrown
  deriving DecidableEq, Repr

/-- Mutable fields of a handler relevant to resolution and forwarding. -/
structure HandlerState where
  webhookUrl : Option JStr
  webhookUrlLastFetched : Nat
  dedupeCache : DedupeCache
  deriving DecidableEq, Repr

/-- The normalized payload `crmMessage` built by
`InboundHandler.handleBaileysMessage` (`from` is rendered as `fromAddr`;
the ISO timestamp string is represented by its millisecond value). -/
structure CrmMessage where
  provider : JStr
  fromAddr : JStr
  body : JStr
  message : JStr
  message_id : JStr
  timestampMs : Nat
  type : JStr
  phone_e164 : JStr
  deriving DecidableEq, Repr

/-- Externally observable actions of a handler, in program order.  Audit
records carry the fields the claims mention (`auditLogger.log` swallows its
own errors — `src/utils/audit.ts` wraps the insert in try/catch — so it is a
plain effect). -/
inductive Effect where
  | settingsGet
  | webhookPost (url : JStr) (payload : CrmMessage)
  | audit (eventType : JStr) (messageId : JStr) (phone : JStr)
      (success : Bool)
  deriving DecidableEq, Repr

/-- `InboundHandler.fetchWebhookUrl` (env-aware variant, lines 52–142): an
override wins without any network call; otherwise GET the settings and
update/clear the cached URL.  All failure branches (non-ok response, missing
field, thrown request) clear a truthy cached URL. -/
def fetchWebhookUrl (env : Env) (settings : SettingsFetch) (st : HandlerState) :
    HandlerState × List Effect :=
  match env.inboundOverride with
  | some u => ({ st with webhookUrl := some u }, [])
  | none =>
    match settings with
    | .response true field =>
      if jsTruthy field then
        ({ st with webhookUrl := field }, [.settingsGet])
      else if jsTruthy st.webhookUrl then
        ({ st with webhookUrl := none }, [.settingsGet])
      else
        (st, [.settingsGet])
    | .response false _ =>
      if jsTruthy st.webhookUrl then
        ({ st with webhookUrl := none }, [.settingsGet])
      else
        (st, [.settingsGet])
    | .thrown =>
      if jsTruthy st.webhookUrl then
        ({ st with webhookUrl := none }, [.settingsGet])
      else
        (st, [.settingsGet])

/-- `OutboundHandler.fetchWebhookUrl` of the legacy `src/whatsapp/outbound.ts`
(lines 27–64): no environment override; the cached URL is cleared only when
the response is OK but the field is missing (lines 53–56); a non-success
response (lines 58–60) or a thrown request (lines 61–63) only logs and keeps
the cached URL. -/
def legacyFetchWebhookUrl (settings : SettingsFetch) (st : HandlerState) :
    HandlerState × List Effect :=
  match settings with
  | .response true field =>
    if jsTruthy field then
      ({ st with webhookUrl := field }, [.settingsGet])
    else if jsTruthy st.webhookUrl then
      ({ st with webhookUrl := none }, [.settingsGet])
    else
      (st, [.settingsGet])
  | .response false _ => (st, [.settingsGet])
  | .thrown => (st, [.settingsGet])

/-- The fields of a raw Baileys `proto.IWebMessageInfo` event read by the
handler (all optional in the protobuf schema; `messageTimestamp` is kept only
when it is a JS `number`, in seconds). -/
structure BMessage where
  keyId : Option JStr
  remoteJid : Option JStr
  conversation : Option JStr
  extendedText : Option JStr
  messageTimestamp : Option Nat
  deriving DecidableEq, Repr

/-- `WEBHOOK_REFRESH_INTERVAL_MS = 5 * 60 * 1000`. -/
def WEBHOOK_REFRESH_INTERVAL_MS : Nat := 5 * 60 * 1000

/-- Remote outcomes one `handleBaileysMessage` call may consume. -/
structure InboundWorld where
  settings : SettingsFetch
  post : PostResult
  deriving DecidableEq, Repr

/-- `InboundHandler.handleBaileysMessage` (env-aware variant, lines 144–271).
Returns the call's result (`.error` = the outer `catch` re-threw, lines
267–270), the new handler state, and the observable effects in order.

Faithful details: `message.messageTimestamp && typeof ... === 'number'`
treats `0` as falsy (falling back to `new Date()`), and
`new Date(seconds * 1000).toISOString()` throws a `RangeError` when the
millisecond value is outside the ECMAScript date range — before the
group/broadcast filter runs. -/
def handleBaileysMessage (env : Env) (w : InboundWorld) (st : HandlerState)
    (msg : BMessage) (now : Nat) :
    Except Unit Unit × HandlerState × List Effect :=
  let messageId := msg.keyId.getD []
  let fromJid := msg.remoteJid.getD []
  let messageText := (jsOr msg.conversation msg.extendedText).getD []
  let timestampE :=
    match msg.messageTimestamp with
    | some ts => if ts ≠ 0 then dateToISOStringMs (ts * 1000) else .ok now
    | none => .ok now
  match timestampE with
  | .error e => (.error e, st, [])
  | .ok tsMs =>
    if jsIncludes fromJid "@g.us".toList || jsIncludes fromJid "@broadcast".toList then
      (.ok (), st, [])
    else
      let hasResult := st.dedupeCache.hasAt messageId now
      let st1 := { st with dedupeCache := hasResult.2 }
      if hasResult.1 then
        (.ok (), st1, [])
      else
        let st2 := { st1 with dedupeCache := st1.dedupeCache.addAt messageId now }
        let phoneNumber := takeUntil '@' fromJid
        let phoneE164 :=
          if listStartsWith phoneNumber "+".toList then phoneNumber
          else '+' :: phoneNumber
        let crmMessage : CrmMessage :=
          { provider := "baileys".toList, fromAddr := phoneE164, body := messageText,
            message := messageText, message_id := messageId,
            timestampMs := tsMs, type := "text".toList, phone_e164 := phoneE164 }
        let resolved :=
          match env.inboundOverride with
          | some u => ({ st2 with webhookUrl := some u }, ([] : List Effect))
          | none =>
            if !jsTruthy st2.webhookUrl ∨
                now - st2.webhookUrlLastFetched > WEBHOOK_REFRESH_INTERVAL_MS then
              let fr := fetchWebhookUrl env w.settings st2
              ({ fr.1 with webhookUrlLastFetched := now }, fr.2)
            else
              (st2, [])
        let st3 := resolved.1
        let fx := resolved.2
        if jsTruthy st3.webhookUrl then
          let url := st3.webhookUrl.getD []
          match w.post with
          | .response ok =>
            (.ok (), st3, fx ++ [.webhookPost url crmMessage,
              .audit "inbound".toList messageId phoneE164 ok])
          | .thrown =>
            (.ok (), st3, fx ++ [.webhookPost url crmMessage,
              .audit "inbound".toList messageId phoneE164 false])
        else
          (.ok (), st3, fx ++ [.audit "inbound".toList messageId phoneE164 false])

/-! ## The queue invariant -/

theorem qinv_init : QInv QState.init := by
  simp [QInv, QState.init]

theorem qinv_workers_singleton {s : QState} {w : Nat} (hinv : QInv s)
    (h : w ∈ s.workers) : s.workers = [w] ∧ s.processing = true := by
  obtain ⟨h1, _, _⟩ := hinv
  cases hproc : s.processing with
  | false =>
    rw [hproc] at h1
    simp only [Bool.false_eq_true, if_false] at h1
    rw [List.length_eq_zero] at h1
    rw [h1] at h
    simp at h
  | true =>
    rw [hproc] at h1
    simp only [if_pos rfl] at h1
    obtain ⟨a, ha⟩ := List.length_eq_one.mp h1
    rw [ha] at h
    simp at h
    subst h
    exact ⟨ha, rfl⟩

theorem qinv_preserved {oc : Nat → Bool} {s s' : QState}
    (hinv : QInv s) (hstep : QStep oc s s') : QInv s' := by
  obtain ⟨h1, h2, h3⟩ := hinv
  cases hstep with
  | add_busy h =>
    refine ⟨by simpa [h] using h1, by simp [h], ?_⟩
    simp only [h3]
    simp
  | add_idle h =>
    have hw : s.workers = [] := by
      rw [h] at h1
      simp only [Bool.false_eq_true, if_false] at h1
      exact List.length_eq_zero.mp h1
    have hp : s.pending = [] := h2 h
    refine ⟨by simp [hw], by simp, ?_⟩
    simp only [h3, hw, hp]
    simp [List.headI]
  | complete_continue w h hp =>
    obtain ⟨hw, hproc⟩ := qinv_workers_singleton ⟨h1, h2, h3⟩ h
    obtain ⟨p0, rest, hpd⟩ : ∃ p0 rest, s.pending = p0 :: rest := by
      cases hpd : s.pending with
      | nil => exact absurd hpd hp
      | cons a l => exact ⟨a, l, rfl⟩
    refine ⟨by simp [hw, hproc], by simp [hproc], ?_⟩
    simp only [h3, hw, hpd]
    simp [List.headI]
  | complete_exit w h hp =>
    obtain ⟨hw, hproc⟩ := qinv_workers_singleton ⟨h1, h2, h3⟩ h
    refine ⟨by simp [hw], fun _ => hp, ?_⟩
    simp only [h3, hw, hp]
    simp

theorem qreach_inv {oc : Nat → Bool} {s : QState} (h : QReach oc s) : QInv s := by
  induction h with
  | init => exact qinv_init
  | step _ hstep ih => exact qinv_preserved ih hstep

/-! ## Facts about `executeWithRetry` -/

theorem executeWithRetryGo_attempts_le (maxRetries retryDelayMs : Nat)
    (fails : Nat → Bool) :
    ∀ d retries, maxRetries + 1 - retries ≤ d →
      (executeWithRetryGo maxRetries retryDelayMs fails retries).attempts ≤
        maxRetries + 1 - retries := by
  intro d
  induction d with
  | zero =>
    intro r h
    rw [executeWithRetryGo]
    have : ¬ r ≤ maxRetries := by omega
    simp [this]
  | succ d ih =>
    intro r h
    rw [executeWithRetryGo]
    by_cases h1 : r ≤ maxRetries
    · simp only [h1, dif_pos]
      by_cases h2 : fails r = true
      · simp only [h2, if_pos]
        by_cases h3 : maxRetries < r + 1
        · simp [h3]; omega
        · have := ih (r + 1) (by omega)
          simp [h3]
          omega
      · simp only [Bool.not_eq_true] at h2
        simp [h2]
        omega
    · simp [h1]

theorem executeWithRetryGo_delays (maxRetries retryDelayMs : Nat)
    (fails : Nat → Bool) :
    ∀ d retries, maxRetries + 1 - retries ≤ d →
      ∀ i, i < (executeWithRetryGo maxRetries retryDelayMs fails retries).delays.length →
        (executeWithRetryGo maxRetries retryDelayMs fails retries).delays.getD i 0 =
          retryDelayMs * 2 ^ (retries + i) := by
  intro d
  induction d with
  | zero =>
    intro r h i hi
    rw [executeWithRetryGo] at hi
    have : ¬ r ≤ maxRetries := by omega
    simp [this] at hi
  | succ d ih =>
    intro r h i hi
    rw [executeWithRetryGo] at hi ⊢
    by_cases h1 : r ≤ maxRetries
    · simp only [h1, dif_pos] at hi ⊢
      by_cases h2 : fails r = true
      · simp only [h2, if_pos] at hi ⊢
        by_cases h3 : maxRetries < r + 1
        · rw [if_pos h3] at hi
          simp at hi
        · rw [if_neg h3] at hi ⊢
          simp only [List.length_cons] at hi
          cases i with
          | zero => simp
          | succ i =>
            simp only [List.getD_cons_succ]
            have := ih (r + 1) (by omega) i (by omega)
            rw [this, show r + 1 + i = r + (i + 1) from by omega]
      · simp only [Bool.not_eq_true] at h2
        rw [if_neg (by simp [h2])] at hi
        simp at hi
    · simp [h1] at hi

theorem executeWithRetryGo_ok (maxRetries retryDelayMs : Nat) (fails : Nat → Bool)
    (n : Nat) (hn : n ≤ maxRetries) (hfail : ∀ i, i < n → fails i = true)
    (hok : fails n = false) :
    ∀ d r, maxRetries + 1 - r ≤ d → r ≤ n →
      (executeWithRetryGo maxRetries retryDelayMs fails r).result = .ok n ∧
      (executeWithRetryGo maxRetries retryDelayMs fails r).attempts = n + 1 - r ∧
      (executeWithRetryGo maxRetries retryDelayMs fails r).delays.length = n - r := by
  intro d
  induction d with
  | zero =>
    intro r hd hr
    omega
  | succ d ih =>
    intro r hd hr
    rw [executeWithRetryGo]
    have h1 : r ≤ maxRetries := by omega
    simp only [h1, dif_pos]
    by_cases hrn : r = n
    · subst hrn
      rw [if_neg (by simp [hok])]
      refine ⟨rfl, ?_, ?_⟩
      · show 1 = r + 1 - r
        omega
      · show ([] : List Nat).length = r - r
        simp
    · have hrf : fails r = true := hfail r (by omega)
      simp only [hrf, if_pos]
      have h3 : ¬ maxRetries < r + 1 := by omega
      rw [if_neg h3]
      have ht := ih (r + 1) (by omega) (by omega)
      refine ⟨ht.1, ?_, ?_⟩
      · simp only [ht.2.1]
        omega
      · simp only [List.length_cons, ht.2.2]
        omega

theorem executeWithRetryGo_allFail (maxRetries retryDelayMs : Nat)
    (fails : Nat → Bool) (hfail : ∀ i, fails i = true) :
    ∀ d r, maxRetries + 1 - r ≤ d → r ≤ maxRetries →
      (executeWithRetryGo maxRetries retryDelayMs fails r).result =
        .error (.execError maxRetries) ∧
      (executeWithRetryGo maxRetries retryDelayMs fails r).attempts =
        maxRetries + 1 - r := by
  intro d
  induction d with
  | zero =>
    intro r hd hr
    omega
  | succ d ih =>
    intro r hd hr
    rw [executeWithRetryGo]
    have h1 : r ≤ maxRetries := hr
    simp only [h1, dif_pos, hfail r, if_pos]
    by_cases h3 : maxRetries < r + 1
    · have : r = maxRetries := by omega
      subst this
      rw [if_pos h3]
      refine ⟨rfl, ?_⟩
      show 1 = r + 1 - r
      omega
    · rw [if_neg h3]
      have ht := ih (r + 1) (by omega) (by omega)
      refine ⟨ht.1, ?_⟩
      simp only [ht.2]
      omega

/-! ## Claim theorems for the send queue -/

/-- **C1.** In every state reachable by any interleaving of `enqueue`
(`MessageQueue.add`) calls and worker resumptions, at most one queued item's
executor is running (at most one activation of the `process` loop exists),
and the items settled so far are exactly an initial segment of the
submission-order trace — promises settle in FIFO order (in particular when
every executor succeeds). -/
theorem messageQueue_serial_and_fifo (oc : Nat → Bool) (s : QState)
    (h : QReach oc s) :
    s.workers.length ≤ 1 ∧
    s.settled.map Prod.fst =
      s.enqueued.take (s.settled.map Prod.fst).length := by
  obtain ⟨h1, _h2, h3⟩ := qreach_inv h
  constructor
  · rw [h1]
    split <;> omega
  · rw [h3, List.append_assoc, List.take_left]

/-- Witness for `messageQueue_serial_and_fifo`: a concrete three-step
interleaving (enqueue while idle, enqueue while busy, first completion). -/
theorem messageQueue_serial_and_fifo_witness :
    ({ pending := [], processing := true, workers := [1],
       settled := [(0, true)], enqueued := [0, 1], nextId := 2 } :
        QState).workers.length ≤ 1 ∧
    (({ pending := [], processing := true, workers := [1],
        settled := [(0, true)], enqueued := [0, 1], nextId := 2 } :
        QState).settled.map Prod.fst =
      ({ pending := [], processing := true, workers := [1],
         settled := [(0, true)], enqueued := [0, 1], nextId := 2 } :
        QState).enqueued.take
        (({ pending := [], processing := true, workers := [1],
            settled := [(0, true)], enqueued := [0, 1], nextId := 2 } :
          QState).settled.map Prod.fst).length) :=
  messageQueue_serial_and_fifo (fun _ => true) _
    (QReach.step (QReach.step (QReach.step QReach.init
      (QStep.add_idle QState.init rfl))
      (QStep.add_busy _ rfl))
      (QStep.complete_continue _ 0 (by simp [QState.init, List.headI])
        (by simp [QState.init])))

/-- **C2.** For `executeWithRetry`: the executor is attempted at most
`maxRetries + 1` times; the delay before retry number `n` (1-based, i.e. the
delay at 0-based index `n - 1` of the delay trace) is
`retryDelay * 2 ^ (n - 1)`; an executor failing exactly `maxRetries` times
and then succeeding yields a resolved (`.ok`) result; when all
`maxRetries + 1` attempts fail the result is the error of the last attempt
(index `maxRetries`) after exactly `maxRetries + 1` attempts, and the worker
step relation lets the worker proceed to the next pending item after the
rejection. -/
theorem messageQueue_retry_policy (maxRetries retryDelayMs : Nat)
    (fails : Nat → Bool) :
    (executeWithRetry maxRetries retryDelayMs fails).attempts ≤ maxRetries + 1 ∧
    (∀ i, i < (executeWithRetry maxRetries retryDelayMs fails).delays.length →
      (executeWithRetry maxRetries retryDelayMs fails).delays.getD i 0 =
        retryDelayMs * 2 ^ i) ∧
    ((∀ i, i < maxRetries → fails i = true) → fails maxRetries = false →
      (executeWithRetry maxRetries retryDelayMs fails).result = .ok maxRetries ∧
      (executeWithRetry maxRetries retryDelayMs fails).attempts = maxRetries + 1) ∧
    ((∀ i, fails i = true) →
      (executeWithRetry maxRetries retryDelayMs fails).result =
        .error (.execError maxRetries) ∧
      (executeWithRetry maxRetries retryDelayMs fails).attempts = maxRetries + 1) ∧
    (∀ (oc : Nat → Bool) (s : QState) (w : Nat), w ∈ s.workers →
      s.pending ≠ [] →
      QStep oc s { s with pending := s.pending.tail,
                          workers := s.workers.erase w ++ [s.pending.headI],
                          settled := s.settled ++ [(w, oc w)] }) := by
  refine ⟨?_, ?_, ?_, ?_, ?_⟩
  · have := executeWithRetryGo_attempts_le maxRetries retryDelayMs fails
      (maxRetries + 1) 0 (by omega)
    simpa [executeWithRetry] using this
  · intro i hi
    have := executeWithRetryGo_delays maxRetries retryDelayMs fails
      (maxRetries + 1) 0 (by omega) i hi
    simpa [executeWithRetry] using this
  · intro hfail hok
    have h := executeWithRetryGo_ok maxRetries retryDelayMs fails maxRetries
      (by omega) hfail hok (maxRetries + 1) 0 (by omega) (by omega)
    refine ⟨h.1, ?_⟩
    have h2 := h.2.1
    show (executeWithRetryGo maxRetries retryDelayMs fails 0).attempts =
      maxRetries + 1
    omega
  · intro hfail
    have h := executeWithRetryGo_allFail maxRetries retryDelayMs fails hfail
      (maxRetries + 1) 0 (by omega) (by omega)
    refine ⟨h.1, ?_⟩
    have h2 := h.2
    show (executeWithRetryGo maxRetries retryDelayMs fails 0).attempts =
      maxRetries + 1
    omega
  · intro oc s w hw hp
    exact QStep.complete_continue s w hw hp

/-- Witness for `messageQueue_retry_policy` at `maxRetries = 3`,
`retryDelay = 1000`: an executor failing exactly thrice succeeds on the 4th
attempt after delays `1000, 2000, 4000`; an always-failing executor rejects
with the last attempt's error after 4 attempts. -/
theorem messageQueue_retry_policy_witness :
    (executeWithRetry 3 1000 (fun i => decide (i < 3))).result = .ok 3 ∧
    (executeWithRetry 3 1000 (fun i => decide (i < 3))).delays =
      [1000, 2000, 4000] ∧
    (executeWithRetry 3 1000 (fun _ => true)).result =
      .error (.execError 3) ∧
    (executeWithRetry 3 1000 (fun _ => true)).attempts = 4 := by
  refine ⟨((messageQueue_retry_policy 3 1000 (fun i => decide (i < 3))).2.2.1
      (fun i hi => decide_eq_true hi) (by decide)).1,
    by simp [executeWithRetry, executeWithRetryGo],
    ((messageQueue_retry_policy 3 1000 (fun _ => true)).2.2.2.1
      (fun _ => rfl)).1,
    ((messageQueue_retry_policy 3 1000 (fun _ => true)).2.2.2.1
      (fun _ => rfl)).2⟩

/-! ## Facts about the association-list `Map` model and `sortByTs` -/

theorem find?_map_update (l : List (JStr × Nat)) (k : JStr) (v : Nat) :
    (l.map (fun e => if e.1 = k then (k, v) else e)).find? (fun e => e.1 = k) =
      (l.find? (fun e => e.1 = k)).map (fun _ => (k, v)) := by
  induction l with
  | nil => simp
  | cons e rest ih =>
    by_cases he : e.1 = k
    · simp only [List.map_cons, if_pos he]
      rw [List.find?_cons_of_pos _ (by simp), List.find?_cons_of_pos _ (by simp [he])]
      simp
    · simp only [List.map_cons, if_neg he]
      rw [List.find?_cons_of_neg _ (by simp [he]), List.find?_cons_of_neg _ (by simp [he])]
      exact ih

theorem mapGet_mapSet_self (l : List (JStr × Nat)) (k : JStr) (v : Nat) :
    mapGet (mapSet l k v) k = some v := by
  unfold mapSet
  by_cases h : (l.find? (fun e => e.1 = k)).isSome
  · rw [if_pos h]
    unfold mapGet
    rw [find?_map_update]
    obtain ⟨e, he⟩ := Option.isSome_iff_exists.mp h
    rw [he]
    simp
  · rw [if_neg h]
    unfold mapGet
    rw [List.find?_append, Option.not_isSome_iff_eq_none.mp h]
    simp

theorem mapGet_mapDelete_self (l : List (JStr × Nat)) (k : JStr) :
    mapGet (mapDelete l k) k = none := by
  unfold mapGet mapDelete
  rw [List.find?_eq_none.mpr]
  · rfl
  · intro x hx
    have h2 := (List.mem_filter.mp hx).2
    simp only [decide_not] at h2 ⊢
    simp at h2 ⊢
    exact h2

theorem length_mapSet_le (l : List (JStr × Nat)) (k : JStr) (v : Nat) :
    (mapSet l k v).length ≤ l.length + 1 := by
  unfold mapSet
  split
  · simp
  · simp

theorem length_mapDelete_lt {l : List (JStr × Nat)} {x : JStr × Nat}
    (hx : x ∈ l) : (mapDelete l x.1).length < l.length := by
  unfold mapDelete
  exact List.length_filter_lt_length_iff_exists.mpr ⟨x, hx, by simp⟩

theorem length_insertByTs (e : JStr × Nat) (l : List (JStr × Nat)) :
    (insertByTs e l).length = l.length + 1 := by
  induction l with
  | nil => rfl
  | cons x xs ih =>
    unfold insertByTs
    split
    · simp
    · simp [ih]

theorem length_sortByTs (l : List (JStr × Nat)) :
    (sortByTs l).length = l.length := by
  induction l with
  | nil => rfl
  | cons x xs ih =>
    unfold sortByTs
    rw [length_insertByTs, ih]
    rfl

theorem sortByTs_head_min :
    ∀ (l : List (JStr × Nat)) (old : JStr × Nat) (rest : List (JStr × Nat)),
      sortByTs l = old :: rest → old ∈ l ∧ ∀ y ∈ l, old.2 ≤ y.2 := by
  intro l
  induction l with
  | nil =>
    intro old rest h
    simp [sortByTs] at h
  | cons x xs ih =>
    intro old rest h
    unfold sortByTs at h
    cases hs : sortByTs xs with
    | nil =>
      have hxs : xs = [] := by
        have hl := length_sortByTs xs
        rw [hs] at hl
        exact List.length_eq_zero.mp hl.symm
      rw [hs] at h
      unfold insertByTs at h
      obtain ⟨rfl, -⟩ := List.cons.inj h
      subst hxs
      exact ⟨List.mem_singleton.mpr rfl, by simp⟩
    | cons hd tl =>
      rw [hs] at h
      obtain ⟨hmem, hmin⟩ := ih hd tl hs
      unfold insertByTs at h
      by_cases hc : x.2 ≤ hd.2
      · rw [if_pos hc] at h
        obtain ⟨rfl, -⟩ := List.cons.inj h
        refine ⟨List.mem_cons_self x xs, ?_⟩
        intro y hy
        rcases List.mem_cons.mp hy with rfl | hy'
        · exact Nat.le_refl _
        · exact Nat.le_trans hc (hmin y hy')
      · rw [if_neg hc] at h
        obtain ⟨rfl, -⟩ := List.cons.inj h
        refine ⟨List.mem_cons_of_mem x hmem, ?_⟩
        intro y hy
        rcases List.mem_cons.mp hy with rfl | hy'
        · exact Nat.le_of_lt (Nat.lt_of_not_le hc)
        · exact hmin y hy'

/-- At capacity with a non-empty cache, `add` deletes a minimal-timestamp
entry (the first-inserted one among ties) and then `set`s the new id. -/
theorem addAt_at_capacity (c : DedupeCache) (id : JStr) (now : Nat)
    (hcap : c.maxSize ≤ c.cache.length) (hne : c.cache ≠ []) :
    ∃ old, old ∈ c.cache ∧ (∀ e ∈ c.cache, old.2 ≤ e.2) ∧
      (c.addAt id now).cache = mapSet (mapDelete c.cache old.1) id now := by
  obtain ⟨old, rest, hs⟩ : ∃ old rest, sortByTs c.cache = old :: rest := by
    cases hs : sortByTs c.cache with
    | nil =>
      have hl := length_sortByTs c.cache
      rw [hs] at hl
      exact absurd (List.length_eq_zero.mp hl.symm) hne
    | cons a l => exact ⟨a, l, rfl⟩
  obtain ⟨hmem, hmin⟩ := sortByTs_head_min c.cache old rest hs
  refine ⟨old, hmem, hmin, ?_⟩
  unfold DedupeCache.addAt
  rw [if_pos hcap, hs]
  rfl

/-- `add` keeps the cache within a positive capacity. -/
theorem addAt_length_le (c : DedupeCache) (id : JStr) (now : Nat)
    (hms : 1 ≤ c.maxSize) (hlen : c.cache.length ≤ c.maxSize) :
    (c.addAt id now).cache.length ≤ c.maxSize := by
  by_cases hcap : c.maxSize ≤ c.cache.length
  · have hne : c.cache ≠ [] := by
      intro h0
      rw [h0] at hcap
      simp at hcap
      omega
    obtain ⟨old, hmem, -, heq⟩ := addAt_at_capacity c id now hcap hne
    rw [heq]
    have h1 := length_mapSet_le (mapDelete c.cache old.1) id now
    have h2 := length_mapDelete_lt hmem
    omega
  · unfold DedupeCache.addAt
    rw [if_neg hcap]
    have h1 := length_mapSet_le c.cache id now
    show (mapSet c.cache id now).length ≤ c.maxSize
    omega

theorem addSeq_length_le :
    ∀ (ops : List (JStr × Nat)) (c : DedupeCache), 1 ≤ c.maxSize →
      c.cache.length ≤ c.maxSize → (c.addSeq ops).cache.length ≤ c.maxSize := by
  intro ops
  induction ops with
  | nil => intro c _ h; exact h
  | cons op rest ih =>
    intro c hms hlen
    have := ih (c.addAt op.1 op.2) hms (addAt_length_le c op.1 op.2 hms hlen)
    simpa [DedupeCache.addSeq] using this

theorem mapGet_addAt_self (c : DedupeCache) (id : JStr) (now : Nat) :
    mapGet (c.addAt id now).cache id = some now :=
  mapGet_mapSet_self _ id now

/-! ## Claim theorems for the dedup cache -/

/-- **C5.** `has(id)` is `false` on a fresh cache (and whenever `id` was
never added), `true` at any instant within `ttl` of an `add(id)` (in
particular immediately after), `false` once strictly more than `ttl`
milliseconds have elapsed since the `add` — and that expired lookup evicts
the entry from the cache as a side effect. -/
theorem dedupeCache_has_ttl (m t : Nat) (c : DedupeCache) (id : JStr)
    (tAdd now tLate : Nat) (hFresh : now - tAdd ≤ c.ttlMs)
    (hLate : tLate - tAdd > c.ttlMs) :
    ((DedupeCache.init m t).hasAt id now).1 = false ∧
    (∀ c2 : DedupeCache, mapGet c2.cache id = none →
      (c2.hasAt id now).1 = false) ∧
    ((c.addAt id tAdd).hasAt id now).1 = true ∧
    ((c.addAt id tAdd).hasAt id tLate).1 = false ∧
    mapGet ((c.addAt id tAdd).hasAt id tLate).2.cache id = none := by
  refine ⟨rfl, ?_, ?_, ?_, ?_⟩
  · intro c2 h
    simp [DedupeCache.hasAt, h]
  · unfold DedupeCache.hasAt
    rw [mapGet_addAt_self]
    dsimp only
    rw [if_neg (by show ¬ now - tAdd > c.ttlMs; omega)]
  · unfold DedupeCache.hasAt
    rw [mapGet_addAt_self]
    dsimp only
    rw [if_pos (by show tLate - tAdd > c.ttlMs; omega)]
  · unfold DedupeCache.hasAt
    rw [mapGet_addAt_self]
    dsimp only
    rw [if_pos (by show tLate - tAdd > c.ttlMs; omega)]
    exact mapGet_mapDelete_self _ id

/-- Witness for `dedupeCache_has_ttl`: `ttl = 100`, add at `0`; `has` is
`true` at `50` and `false` at `150`, the expired lookup removing the
entry. -/
theorem dedupeCache_has_ttl_witness :
    ((DedupeCache.init 2 100).hasAt "x".toList 50).1 = false ∧
    (((DedupeCache.init 2 100).addAt "x".toList 0).hasAt "x".toList 50).1 = true ∧
    (((DedupeCache.init 2 100).addAt "x".toList 0).hasAt "x".toList 150).1 = false ∧
    mapGet (((DedupeCache.init 2 100).addAt "x".toList 0).hasAt
      "x".toList 150).2.cache "x".toList = none :=
  ⟨(dedupeCache_has_ttl 2 100 (DedupeCache.init 2 100) "x".toList 0 50 150
      (by decide) (by decide)).1,
   (dedupeCache_has_ttl 2 100 (DedupeCache.init 2 100) "x".toList 0 50 150
      (by decide) (by decide)).2.2.1,
   (dedupeCache_has_ttl 2 100 (DedupeCache.init 2 100) "x".toList 0 50 150
      (by decide) (by decide)).2.2.2.1,
   (dedupeCache_has_ttl 2 100 (DedupeCache.init 2 100) "x".toList 0 50 150
      (by decide) (by decide)).2.2.2.2⟩

/-- **C6 (amended).** Provided the configured capacity is positive
(`maxSize ≥ 1`), `add` at capacity evicts exactly one minimal-timestamp
entry (the first-inserted among ties) before inserting, and the cache never
exceeds `maxSize` entries after any sequence of `add` calls; with
`maxSize = 2`, adding `a, b, c` leaves exactly `{b ↦ 1, c ↦ 2}`.  (With
`maxSize = 0` the unconditional capacity bound fails; see
`dedupeCache_capacity_cex`.) -/
theorem dedupeCache_capacity (m t : Nat) (hm : 1 ≤ m)
    (ops : List (JStr × Nat)) :
    ((DedupeCache.init m t).addSeq ops).cache.length ≤ m ∧
    (∀ (c : DedupeCache) (id : JStr) (now : Nat),
      c.maxSize ≤ c.cache.length → c.cache ≠ [] →
      ∃ old, old ∈ c.cache ∧ (∀ e ∈ c.cache, old.2 ≤ e.2) ∧
        (c.addAt id now).cache = mapSet (mapDelete c.cache old.1) id now) ∧
    ((DedupeCache.init 2 3600000).addSeq
        [("a".toList, 0), ("b".toList, 1), ("c".toList, 2)]).cache =
      [("b".toList, 1), ("c".toList, 2)] := by
  refine ⟨addSeq_length_le ops (DedupeCache.init m t) hm
      (by simp [DedupeCache.init]),
    fun c id now hcap hne => addAt_at_capacity c id now hcap hne,
    by decide⟩

/-- Witness for `dedupeCache_capacity` at `maxSize = 2` with the `a, b, c`
insertion sequence. -/
theorem dedupeCache_capacity_witness :
    ((DedupeCache.init 2 3600000).addSeq
        [("a".toList, 0), ("b".toList, 1), ("c".toList, 2)]).cache.length ≤ 2 ∧
    ((DedupeCache.init 2 3600000).addSeq
        [("a".toList, 0), ("b".toList, 1), ("c".toList, 2)]).cache =
      [("b".toList, 1), ("c".toList, 2)] :=
  ⟨(dedupeCache_capacity 2 3600000 (by decide)
      [("a".toList, 0), ("b".toList, 1), ("c".toList, 2)]).1,
   (dedupeCache_capacity 2 3600000 (by decide)
      [("a".toList, 0), ("b".toList, 1), ("c".toList, 2)]).2.2⟩

/-- **C6, counterexample to the claim as stated.** The capacity bound is not
unconditional over all configurations: with `maxSize = 0` (the capacity is
read from the `DEDUPE_CACHE_SIZE` environment variable, so `0` is
expressible) a single `add` leaves `1 > maxSize` entries, because the
eviction branch deletes nothing from an empty cache and `set` then
inserts. -/
theorem dedupeCache_capacity_cex :
    ((DedupeCache.init 0 3600000).addSeq [("a".toList, 0)]).cache.length = 1 ∧
    ¬ ((DedupeCache.init 0 3600000).addSeq [("a".toList, 0)]).cache.length ≤
        (DedupeCache.init 0 3600000).maxSize := by
  decide

/-! ## Claim theorems for the webhook resolvers -/

/-- **C3 (amended).** For the env-aware resolver variants
(`InboundHandler.fetchWebhookUrl` and the matching `OutboundHandler`
variant): with no environment override, every failed settings fetch — a
non-success response, a success response lacking a truthy webhook field, or
a thrown request — leaves the cached address cleared, so `getWebhookUrl()`
returns `null` afterwards (from any state whose cached address is absent or
a real, non-empty address).  The legacy `src/whatsapp/outbound.ts` resolver
violates the claim as stated: see `webhookResolver_clear_cex`. -/
theorem fetchWebhookUrl_clears_on_failure (env : Env) (st : HandlerState)
    (settings : SettingsFetch) (hov : env.inboundOverride = none)
    (hst : st.webhookUrl = none ∨ jsTruthy st.webhookUrl = true)
    (hfail : settings = .thrown ∨ (∃ f, settings = .response false f) ∨
      (∃ f, settings = .response true f ∧ jsTruthy f = false)) :
    (fetchWebhookUrl env settings st).1.webhookUrl = none := by
  unfold fetchWebhookUrl
  rw [hov]
  rcases hfail with rfl | ⟨f, rfl⟩ | ⟨f, rfl, hf⟩
  · dsimp only
    rcases hst with h | h
    · rw [if_neg (by simp [h, jsTruthy])]
      dsimp only
      exact h
    · rw [if_pos h]
  · dsimp only
    rcases hst with h | h
    · rw [if_neg (by simp [h, jsTruthy])]
      dsimp only
      exact h
    · rw [if_pos h]
  · dsimp only
    rw [if_neg (by simp [hf])]
    rcases hst with h | h
    · rw [if_neg (by simp [h, jsTruthy])]
      dsimp only
      exact h
    · rw [if_pos h]

/-- Witness for `fetchWebhookUrl_clears_on_failure`: a cached address
`https://old.example` is cleared by a non-success settings response when no
override is set. -/
theorem fetchWebhookUrl_clears_on_failure_witness :
    (fetchWebhookUrl
      { inboundWebhookUrl := none, n8nWebhookInboundUrl := none,
        crmWebhookUrl := none, n8nWebhookUrl := none }
      (.response false none)
      { webhookUrl := some "https://old.example".toList,
        webhookUrlLastFetched := 0,
        dedupeCache := DedupeCache.init 1000 3600000 }).1.webhookUrl = none :=
  fetchWebhookUrl_clears_on_failure _ _ _ (by decide)
    (Or.inr (by decide)) (Or.inr (Or.inl ⟨none, rfl⟩))

/-- **C3, counterexample to the claim as stated.** The claim quantifies over
"every settings-fetch attempt by a webhook resolver with no environment
override present", but the legacy resolver `OutboundHandler.fetchWebhookUrl`
in `src/whatsapp/outbound.ts` (which has no override path at all) keeps a
previously cached address when the settings response is non-success, instead
of clearing it. -/
theorem webhookResolver_clear_cex :
    (legacyFetchWebhookUrl (.response false none)
      { webhookUrl := some "https://old.example".toList,
        webhookUrlLastFetched := 0,
        dedupeCache := DedupeCache.init 1000 3600000 }).1.webhookUrl =
      some "https://old.example".toList ∧
    (legacyFetchWebhookUrl .thrown
      { webhookUrl := some "https://old.example".toList,
        webhookUrlLastFetched := 0,
        dedupeCache := DedupeCache.init 1000 3600000 }).1.webhookUrl ≠
      none := by
  exact ⟨rfl, by decide⟩

/-- **C4.** Whenever an environment-level webhook override is set, the
resolver returns it without any settings request (no `settingsGet` effect is
emitted) and the resulting cached address is the override — for every remote
outcome `settings`, so a remotely available different address never
overwrites it. -/
theorem fetchWebhookUrl_override_wins (env : Env) (st : HandlerState)
    (settings : SettingsFetch) (u : JStr)
    (h : env.inboundOverride = some u) :
    (fetchWebhookUrl env settings st).1.webhookUrl = some u ∧
    (fetchWebhookUrl env settings st).2 = [] := by
  unfold fetchWebhookUrl
  rw [h]
  exact ⟨rfl, rfl⟩

/-- Witness for `fetchWebhookUrl_override_wins`: `INBOUND_WEBHOOK_URL` is
set to `https://env.example` while the remote settings would have returned
`https://crm.example`; the override stands and no request is made. -/
theorem fetchWebhookUrl_override_wins_witness :
    (fetchWebhookUrl
      { inboundWebhookUrl := some "https://env.example".toList,
        n8nWebhookInboundUrl := none, crmWebhookUrl := none,
        n8nWebhookUrl := none }
      (.response true (some "https://crm.example".toList))
      { webhookUrl := none, webhookUrlLastFetched := 0,
        dedupeCache := DedupeCache.init 1000 3600000 }).1.webhookUrl =
      some "https://env.example".toList ∧
    (fetchWebhookUrl
      { inboundWebhookUrl := some "https://env.example".toList,
        n8nWebhookInboundUrl := none, crmWebhookUrl := none,
        n8nWebhookUrl := none }
      (.response true (some "https://crm.example".toList))
      { webhookUrl := none, webhookUrlLastFetched := 0,
        dedupeCache := DedupeCache.init 1000 3600000 }).2 = [] :=
  fetchWebhookUrl_override_wins _ _ _ "https://env.example".toList (by decide)

/-! ## Claim theorems for the inbound forwarder -/

/-- **C7 (amended).** `handleBaileysMessage` completes normally — no
exception escapes to the caller — for every event whose timestamp
normalization succeeds (absent, `0`, or within the ECMAScript date range),
whatever the remote world does: settings fetch failures, webhook `POST`
failures and non-2xx responses are all converted to logs/audit records
internally.  An event whose extracted fields themselves throw (an
out-of-range `messageTimestamp`) is re-thrown by the outer `catch`
(lines 267–270): see `forwarder_throw_cex`. -/
theorem forwarder_no_escape (env : Env) (w : InboundWorld) (st : HandlerState)
    (msg : BMessage) (now : Nat)
    (hts : ∀ ts, msg.messageTimestamp = some ts →
      ts = 0 ∨ ts * 1000 ≤ maxDateMs) :
    (handleBaileysMessage env w st msg now).1 = .ok () := by
  unfold handleBaileysMessage
  dsimp only
  split
  case _ e heq =>
    exfalso
    cases hmt : msg.messageTimestamp with
    | none =>
      rw [hmt] at heq
      simp at heq
    | some ts =>
      rw [hmt] at heq
      rcases hts ts hmt with rfl | hle
      · simp at heq
      · by_cases h0 : ts = 0
        · simp [h0] at heq
        · dsimp only at heq
          rw [if_pos h0] at heq
          unfold dateToISOStringMs at heq
          rw [if_pos hle] at heq
          exact Except.noConfusion heq
  case _ tsMs heq =>
    repeat' split
    all_goals rfl

/-- Witness for `forwarder_no_escape`: a well-formed event with a settings
fetch that throws and a webhook `POST` that throws still completes
normally. -/
theorem forwarder_no_escape_witness :
    (handleBaileysMessage
      { inboundWebhookUrl := none, n8nWebhookInboundUrl := none,
        crmWebhookUrl := none, n8nWebhookUrl := none }
      { settings := .thrown, post := .thrown }
      { webhookUrl := some "https://old.example".toList,
        webhookUrlLastFetched := 0,
        dedupeCache := DedupeCache.init 1000 3600000 }
      { keyId := some "m7".toList,
        remoteJid := some "123@s.whatsapp.net".toList,
        conversation := some "hi".toList, extendedText := none,
        messageTimestamp := some 1700000000 }
      1000000).1 = .ok () :=
  forwarder_no_escape _ _ _ _ 1000000
    (fun ts hts => by
      injection hts with h
      exact Or.inr (by rw [← h]; decide))

/-- **C7, counterexample to the claim as stated.** The outer `catch` of
`handleBaileysMessage` re-throws (`throw error`, line 269 of the inbound
handler), so not every failure is converted internally: an event carrying
`messageTimestamp = 9 * 10^15` seconds makes
`new Date(9e18).toISOString()` throw a `RangeError` that escapes to the
caller. -/
theorem forwarder_throw_cex :
    (handleBaileysMessage
      { inboundWebhookUrl := some "https://wh.example".toList,
        n8nWebhookInboundUrl := none, crmWebhookUrl := none,
        n8nWebhookUrl := none }
      { settings := .thrown, post := .response true }
      { webhookUrl := some "https://wh.example".toList,
        webhookUrlLastFetched := 0,
        dedupeCache := DedupeCache.init 1000 3600000 }
      { keyId := some "m-big".toList,
        remoteJid := some "123@s.whatsapp.net".toList,
        conversation := some "hi".toList, extendedText := none,
        messageTimestamp := some 9000000000000000 }
      1000000).1 = .error () := rfl

/-- **C9.** An event whose JID contains `@g.us` or `@broadcast` is ignored
entirely: the handler state (dedup cache, webhook cache) is unchanged and no
effect — no settings fetch, no `POST`, no audit record — is produced, for
every environment, remote world, state and clock. -/
theorem forwarder_group_frame (env : Env) (w : InboundWorld)
    (st : HandlerState) (msg : BMessage) (now : Nat)
    (h : (jsIncludes (msg.remoteJid.getD []) "@g.us".toList ||
      jsIncludes (msg.remoteJid.getD []) "@broadcast".toList) = true) :
    (handleBaileysMessage env w st msg now).2.1 = st ∧
    (handleBaileysMessage env w st msg now).2.2 = [] := by
  unfold handleBaileysMessage
  dsimp only
  split
  · exact ⟨rfl, rfl⟩
  · rw [if_pos h]
    exact ⟨rfl, rfl⟩

/-- Witness for `forwarder_group_frame`: a group JID event leaves the state
untouched and produces no effects. -/
theorem forwarder_group_frame_witness :
    (handleBaileysMessage
      { inboundWebhookUrl := none, n8nWebhookInboundUrl := none,
        crmWebhookUrl := none, n8nWebhookUrl := none }
      { settings := .thrown, post := .thrown }
      { webhookUrl := none, webhookUrlLastFetched := 0,
        dedupeCache := DedupeCache.init 1000 3600000 }
      { keyId := some "g1".toList,
        remoteJid := some "12345-67890@g.us".toList,
        conversation := some "hi".toList, extendedText := none,
        messageTimestamp := some 1700000000 }
      1000000).2.1 =
      { webhookUrl := none, webhookUrlLastFetched := 0,
        dedupeCache := DedupeCache.init 1000 3600000 } ∧
    (handleBaileysMessage
      { inboundWebhookUrl := none, n8nWebhookInboundUrl := none,
        crmWebhookUrl := none, n8nWebhookUrl := none }
      { settings := .thrown, post := .thrown }
      { webhookUrl := none, webhookUrlLastFetched := 0,
        dedupeCache := DedupeCache.init 1000 3600000 }
      { keyId := some "g1".toList,
        remoteJid := some "12345-67890@g.us".toList,
        conversation := some "hi".toList, extendedText := none,
        messageTimestamp := some 1700000000 }
      1000000).2.2 = [] :=
  forwarder_group_frame _ _ _ _ 1000000 (by decide)

/-- **C8.** End-to-end: the inbound event
`{id: "m1", fromJid: "85291234567@s.whatsapp.net", text: "hi"}` with a
resolved webhook (`INBOUND_WEBHOOK_URL` override) produces exactly one
webhook `POST` whose payload has `phone_e164 = "+85291234567"` followed by
exactly one audit record with `success: true` — and nothing else; replaying
the identical event 50 ms later (well within the 3 600 000 ms TTL) produces
no effects at all. -/
theorem forwarder_end_to_end :
    (handleBaileysMessage
      { inboundWebhookUrl := some "https://wh.example/in".toList,
        n8nWebhookInboundUrl := none, crmWebhookUrl := none,
        n8nWebhookUrl := none }
      { settings := .thrown, post := .response true }
      { webhookUrl := some "https://wh.example/in".toList,
        webhookUrlLastFetched := 0,
        dedupeCache := DedupeCache.init 1000 3600000 }
      { keyId := some "m1".toList,
        remoteJid := some "85291234567@s.whatsapp.net".toList,
        conversation := some "hi".toList, extendedText := none,
        messageTimestamp := some 1700000000 }
      1000000).2.2 =
      [Effect.webhookPost "https://wh.example/in".toList
        { provider := "baileys".toList,
          fromAddr := "+85291234567".toList,
          body := "hi".toList, message := "hi".toList,
          message_id := "m1".toList, timestampMs := 1700000000000,
          type := "text".toList,
          phone_e164 := "+85291234567".toList },
       Effect.audit "inbound".toList "m1".toList "+85291234567".toList true] ∧
    (handleBaileysMessage
      { inboundWebhookUrl := some "https://wh.example/in".toList,
        n8nWebhookInboundUrl := none, crmWebhookUrl := none,
        n8nWebhookUrl := none }
      { settings := .thrown, post := .response true }
      (handleBaileysMessage
        { inboundWebhookUrl := some "https://wh.example/in".toList,
          n8nWebhookInboundUrl := none, crmWebhookUrl := none,
          n8nWebhookUrl := none }
        { settings := .thrown, post := .response true }
        { webhookUrl := some "https://wh.example/in".toList,
          webhookUrlLastFetched := 0,
          dedupeCache := DedupeCache.init 1000 3600000 }
        { keyId := some "m1".toList,
          remoteJid := some "85291234567@s.whatsapp.net".toList,
          conversation := some "hi".toList, extendedText := none,
          messageTimestamp := some 1700000000 }
        1000000).2.1
      { keyId := some "m1".toList,
        remoteJid := some "85291234567@s.whatsapp.net".toList,
        conversation := some "hi".toList, extendedText := none,
        messageTimestamp := some 1700000000 }
      1000050).2.2 = [] := by
  exact ⟨rfl, rfl⟩

/-- A `has` hit within the TTL leaves the cache untouched. -/
theorem hasAt_fresh (c : DedupeCache) (id : JStr) (t0 now : Nat)
    (hget : mapGet c.cache id = some t0) (hf : now - t0 ≤ c.ttlMs) :
    c.hasAt id now = (true, c) := by
  unfold DedupeCache.hasAt
  rw [hget]
  dsimp only
  rw [if_neg (by omega)]

/-- A `has` miss leaves the cache untouched. -/
theorem hasAt_absent (c : DedupeCache) (id : JStr) (now : Nat)
    (hget : mapGet c.cache id = none) :
    c.hasAt id now = (false, c) := by
  unfold DedupeCache.hasAt
  rw [hget]

/-- The resolver never touches the dedup cache. -/
theorem fetchWebhookUrl_dedupe (env : Env) (s : SettingsFetch)
    (st : HandlerState) :
    (fetchWebhookUrl env s st).1.dedupeCache = st.dedupeCache := by
  unfold fetchWebhookUrl
  repeat' split
  all_goals rfl

/-- **C10, part A.** A non-group event with no message id whose timestamp
normalizes records the empty string as its dedup key: afterwards the dedup
cache maps `""` to the current clock value. -/
theorem forwarder_idless_records_empty (env : Env) (w : InboundWorld)
    (st : HandlerState) (msg : BMessage) (now : Nat)
    (hk : msg.keyId = none)
    (hng : (jsIncludes (msg.remoteJid.getD []) "@g.us".toList ||
      jsIncludes (msg.remoteJid.getD []) "@broadcast".toList) = false)
    (hts : ∀ ts, msg.messageTimestamp = some ts →
      ts = 0 ∨ ts * 1000 ≤ maxDateMs)
    (habsent : mapGet st.dedupeCache.cache [] = none) :
    mapGet (handleBaileysMessage env w st msg now).2.1.dedupeCache.cache [] =
      some now := by
  unfold handleBaileysMessage
  rw [hk]
  simp only [Option.getD_none]
  split
  case _ e heq =>
    exfalso
    cases hmt : msg.messageTimestamp with
    | none =>
      rw [hmt] at heq
      simp at heq
    | some ts =>
      rw [hmt] at heq
      rcases hts ts hmt with rfl | hle
      · simp at heq
      · by_cases h0 : ts = 0
        · simp [h0] at heq
        · dsimp only at heq
          rw [if_pos h0] at heq
          unfold dateToISOStringMs at heq
          rw [if_pos hle] at heq
          exact Except.noConfusion heq
  case _ tsMs heq =>
    rw [if_neg (by rw [hng]; simp),
      hasAt_absent st.dedupeCache [] now habsent]
    rw [if_neg (by simp)]
    dsimp only
    repeat' split
    all_goals simp [fetchWebhookUrl_dedupe, mapGet_addAt_self]

/-- **C10, part B.** While the dedup cache holds a fresh (within-TTL) entry
for the empty-string key, every further event carrying no message id is
dropped whatever its sender, text or timestamp: the handler emits no `POST`
and no audit record (no effects at all) and leaves the state unchanged. -/
theorem forwarder_idless_dropped (env : Env) (w : InboundWorld)
    (st : HandlerState) (msg : BMessage) (now t0 : Nat)
    (hk : msg.keyId = none)
    (hget : mapGet st.dedupeCache.cache [] = some t0)
    (hfresh : now - t0 ≤ st.dedupeCache.ttlMs) :
    (handleBaileysMessage env w st msg now).2.1 = st ∧
    (handleBaileysMessage env w st msg now).2.2 = [] := by
  unfold handleBaileysMessage
  rw [hk]
  simp only [Option.getD_none]
  split
  · exact ⟨rfl, rfl⟩
  · by_cases hg : (jsIncludes (msg.remoteJid.getD []) "@g.us".toList ||
      jsIncludes (msg.remoteJid.getD []) "@broadcast".toList) = true
    · rw [if_pos hg]
      exact ⟨rfl, rfl⟩
    · rw [if_neg hg, hasAt_fresh st.dedupeCache [] t0 now hget hfresh]
      rw [if_pos (show ((true, st.dedupeCache).1 = true) from rfl)]
      exact ⟨rfl, rfl⟩

/-- **C10.** When a protocol event carries no message id the forwarder
substitutes the empty string as the dedup key.  Part A: processing one
non-group id-less event (whose timestamp normalizes) records `""` in the
dedup cache at the current clock.  Part B: while the cache holds a
within-TTL entry for `""`, every further id-less event — whatever its
sender, text or timestamp — is dropped: no `POST`, no audit record, no
state change. -/
theorem forwarder_idless_dedup :
    (∀ (env : Env) (w : InboundWorld) (st : HandlerState) (msg : BMessage)
      (now : Nat), msg.keyId = none →
      (jsIncludes (msg.remoteJid.getD []) "@g.us".toList ||
        jsIncludes (msg.remoteJid.getD []) "@broadcast".toList) = false →
      (∀ ts, msg.messageTimestamp = some ts →
        ts = 0 ∨ ts * 1000 ≤ maxDateMs) →
      mapGet st.dedupeCache.cache [] = none →
      mapGet (handleBaileysMessage env w st msg now).2.1.dedupeCache.cache [] =
        some now) ∧
    (∀ (env : Env) (w : InboundWorld) (st : HandlerState) (msg : BMessage)
      (now t0 : Nat), msg.keyId = none →
      mapGet st.dedupeCache.cache [] = some t0 →
      now - t0 ≤ st.dedupeCache.ttlMs →
      (handleBaileysMessage env w st msg now).2.1 = st ∧
      (handleBaileysMessage env w st msg now).2.2 = []) :=
  ⟨fun env w st msg now hk hng hts habsent =>
      forwarder_idless_records_empty env w st msg now hk hng hts habsent,
   fun env w st msg now t0 hk hget hfresh =>
      forwarder_idless_dropped env w st msg now t0 hk hget hfresh⟩

/-- Witness for `forwarder_idless_dedup`: processing an id-less event
records `""` at time `1000000`; with that entry in place, a later id-less
event from a different sender with different text is dropped with no
effects and no state change. -/
theorem forwarder_idless_dedup_witness :
    mapGet (handleBaileysMessage
      { inboundWebhookUrl := none, n8nWebhookInboundUrl := none,
        crmWebhookUrl := none, n8nWebhookUrl := none }
      { settings := .thrown, post := .thrown }
      { webhookUrl := none, webhookUrlLastFetched := 0,
        dedupeCache := DedupeCache.init 1000 3600000 }
      { keyId := none, remoteJid := some "123@s.whatsapp.net".toList,
        conversation := some "hi".toList, extendedText := none,
        messageTimestamp := none }
      1000000).2.1.dedupeCache.cache [] = some 1000000 ∧
    (handleBaileysMessage
      { inboundWebhookUrl := none, n8nWebhookInboundUrl := none,
        crmWebhookUrl := none, n8nWebhookUrl := none }
      { settings := .thrown, post := .thrown }
      { webhookUrl := none, webhookUrlLastFetched := 0,
        dedupeCache := { cache := [([], 1000000)], maxSize := 1000,
                         ttlMs := 3600000 } }
      { keyId := none, remoteJid := some "999@s.whatsapp.net".toList,
        conversation := some "other text".toList, extendedText := none,
        messageTimestamp := some 555 }
      1000777).2.1 =
      { webhookUrl := none, webhookUrlLastFetched := 0,
        dedupeCache := { cache := [([], 1000000)], maxSize := 1000,
                         ttlMs := 3600000 } } ∧
    (handleBaileysMessage
      { inboundWebhookUrl := none, n8nWebhookInboundUrl := none,
        crmWebhookUrl := none, n8nWebhookUrl := none }
      { settings := .thrown, post := .thrown }
      { webhookUrl := none, webhookUrlLastFetched := 0,
        dedupeCache := { cache := [([], 1000000)], maxSize := 1000,
                         ttlMs := 3600000 } }
      { keyId := none, remoteJid := some "999@s.whatsapp.net".toList,
        conversation := some "other text".toList, extendedText := none,
        messageTimestamp := some 555 }
      1000777).2.2 = [] :=
  ⟨forwarder_idless_dedup.1
      { inboundWebhookUrl := none, n8nWebhookInboundUrl := none,
        crmWebhookUrl := none, n8nWebhookUrl := none }
      { settings := .thrown, post := .thrown }
      { webhookUrl := none, webhookUrlLastFetched := 0,
        dedupeCache := DedupeCache.init 1000 3600000 }
      { keyId := none, remoteJid := some "123@s.whatsapp.net".toList,
        conversation := some "hi".toList, extendedText := none,
        messageTimestamp := none }
      1000000 rfl (by decide) (fun ts hts => nomatch hts) rfl,
   (forwarder_idless_dedup.2
      { inboundWebhookUrl := none, n8nWebhookInboundUrl := none,
        crmWebhookUrl := none, n8nWebhookUrl := none }
      { settings := .thrown, post := .thrown }
      { webhookUrl := none, webhookUrlLastFetched := 0,
        dedupeCache := { cache := [([], 1000000)], maxSize := 1000,
                         ttlMs := 3600000 } }
      { keyId := none, remoteJid := some "999@s.whatsapp.net".toList,
        conversation := some "other text".toList, extendedText := none,
        messageTimestamp := some 555 }
      1000777 1000000 rfl rfl (by decide)).1,
   (forwarder_idless_dedup.2
      { inboundWebhookUrl := none, n8nWebhookInboundUrl := none,
        crmWebhookUrl := none, n8nWebhookUrl := none }
      { settings := .thrown, post := .thrown }
      { webhookUrl := none, webhookUrlLastFetched := 0,
        dedupeCache := { cache := [([], 1000000)], maxSize := 1000,
                         ttlMs := 3600000 } }
      { keyId := none, remoteJid := some "999@s.whatsapp.net".toList,
        conversation := some "other text".toList, extendedText := none,
        messageTimestamp := some 555 }
      1000777 1000000 rfl rfl (by decide)).2⟩

end WaBridge
